import Mathlib

/-!
Verification of the Cursor Codespaces extension (TypeScript sources) against its
natural-language specification.  File contents are modelled as lists of
characters; the JavaScript string primitives used by the code
(`indexOf`, `includes`, `substring`, `trim`/`trimStart`/`trimEnd`,
`toLowerCase`, `split`, single-occurrence `replace`, `Array.join`, `filter`)
are embedded with their JS semantics.  Effectful operations are embedded as
pure functions over explicit inputs: the result of each CLI invocation, the
user's consent answer, and the backend listing visible at each polling step.
-/

namespace CursorCodespaces

/-- File and string contents are lists of characters. -/
abbrev Str := List Char

/-- JS whitespace (the characters relevant to `trim`/`trimStart`/`trimEnd`
on the ASCII configuration text handled by the extension). -/
def isJsWhitespace (c : Char) : Bool :=
  c = ' ' || c = '\t' || c = '\n' || c = '\x0d' || c = '\x0b' || c = '\x0c'

/-- JS `String.prototype.trimStart`. -/
def trimStart (s : Str) : Str := s.dropWhile isJsWhitespace

/-- JS `String.prototype.trimEnd`. -/
def trimEnd (s : Str) : Str := (s.reverse.dropWhile isJsWhitespace).reverse

/-- JS `String.prototype.trim`. -/
def trimStr (s : Str) : Str := trimStart (trimEnd s)

/-- JS `String.prototype.indexOf`: index of the first occurrence of
`needle` in `hay`, `none` standing for `-1`. -/
def firstIndex (hay needle : Str) : Option Nat :=
  match hay with
  | [] => if needle.isPrefixOf [] then some 0 else none
  | c :: rest =>
      if needle.isPrefixOf (c :: rest) then some 0
      else (firstIndex rest needle).map (· + 1)

/-- JS `String.prototype.includes`. -/
def containsStr (hay needle : Str) : Bool := (firstIndex hay needle).isSome

/-- JS `String.prototype.toLowerCase` (ASCII range, as exercised by the code). -/
def toLowerStr (s : Str) : Str := s.map Char.toLower

/-- JS two-argument `String.prototype.substring`: clamps and swaps its
bounds before slicing. -/
def jsSubstring (s : Str) (a b : Nat) : Str := (s.take (max a b)).drop (min a b)

/-- JS `Array.prototype.join('\n\n')`. -/
def joinNN : List Str → Str
  | [] => []
  | [p] => p
  | p :: q :: rest => p ++ '\n' :: '\n' :: joinNN (q :: rest)

/-- JS `String.prototype.split` with a one-character separator. -/
def splitOnChar (sep : Char) : Str → List Str
  | [] => [[]]
  | c :: rest =>
      let r := splitOnChar sep rest
      if c = sep then [] :: r
      else
        match r with
        | h :: t => (c :: h) :: t
        | [] => [[c]]

/-- JS `String.prototype.replace` with a plain (non-regex, one-character)
pattern: replaces only the first occurrence. -/
def replaceFirstChar : Str → Char → Char → Str
  | [], _, _ => []
  | c :: rest, t, r => if c = t then r :: rest else c :: replaceFirstChar rest t r

/-! ## SshConfigManager (src/unnamed/part_004) -/

/-- The `CONFIG_MARKER_START` from the source. -/
def startMarker : Str := ("# >>> Cursor Codespaces Extension (managed)").toList

/-- The `CONFIG_MARKER_END` from the source. -/
def endMarker : Str := ("# <<< Cursor Codespaces Extension").toList

/-- The `SshConfigManager.extractManagedSection`: splits the configuration text
into the part before the managed section (trailing whitespace removed), the
managed section itself, and the part after it (leading whitespace removed);
when either marker is absent the whole text is the "before" part. -/
def extractManagedSection (config : Str) : Str × Str × Str :=
  match firstIndex config startMarker, firstIndex config endMarker with
  | some s, some e =>
      (trimEnd (jsSubstring config 0 s),
       jsSubstring config s (e + endMarker.length),
       trimStart (config.drop (e + endMarker.length)))
  | _, _ => (config, [], [])

/-- The managed block `mergeConfig` builds:
`[CONFIG_MARKER_START, newConfig.trim(), CONFIG_MARKER_END].join('\n')`. -/
def managedSectionOf (newConfig : Str) : Str :=
  startMarker ++ '\n' :: trimStr newConfig ++ '\n' :: endMarker

/-- The pure content computation inside `SshConfigManager.mergeConfig`:
`[before, managedSection, after].filter(p => p.length > 0).join('\n\n') + '\n'`. -/
def mergeConfigText (newConfig current : Str) : Str :=
  joinNN ([(extractManagedSection current).1, managedSectionOf newConfig,
           (extractManagedSection current).2.2].filter (fun p => !p.isEmpty)) ++ ['\n']

/-- Message of the error thrown by `mergeConfig` when the user refuses the
first-write consent dialog. -/
def userDeclinedMsg : Str := ("User declined SSH config modification").toList

/-- The permission-denied phrase tested by the catch-blocks. -/
def permDeniedPhrase : Str := ("permission denied").toList

/-- Re-wrapping performed by the catch-block of `mergeConfig` on an error
whose message is `m` (the thrown `Error` has no `code` field, so only the
message test applies). -/
def wrapMergeError (m : Str) : Str :=
  if containsStr m permDeniedPhrase then
    ("Permission denied writing to SSH config file. ").toList
  else ("Failed to merge SSH config: ").toList ++ m

/-- The `SshConfigManager.mergeConfig`, with the user's consent answer and the
current file content as explicit inputs.  `Except.ok c` means the call
returned normally after writing content `c`; `Except.error m` means it threw
with message `m` and wrote nothing.  The consent dialog is shown exactly when
the current content does not contain the start marker, and declining aborts
before the write. -/
def mergeConfig (userAllows : Bool) (current newConfig : Str) : Except Str Str :=
  if containsStr current startMarker = false ∧ userAllows = false then
    Except.error (wrapMergeError userDeclinedMsg)
  else Except.ok (mergeConfigText newConfig current)

instance {ε α : Type} [DecidableEq ε] [DecidableEq α] : DecidableEq (Except ε α) := fun a b =>
  match a, b with
  | Except.ok x, Except.ok y =>
      if h : x = y then isTrue (by rw [h]) else isFalse (by simp [h])
  | Except.error x, Except.error y =>
      if h : x = y then isTrue (by rw [h]) else isFalse (by simp [h])
  | Except.ok _, Except.error _ => isFalse (by simp)
  | Except.error _, Except.ok _ => isFalse (by simp)

/-! ## GhService (src/src/ghService.ts) -/

/-- A codespace record as parsed from `gh codespace list` output. -/
structure Codespace where
  name : Str
  displayName : Str
  state : Str
  repository : Str
deriving DecidableEq

/-- The sanitization regex `^[a-zA-Z0-9_-]+$` applied to codespace names:
character class membership. -/
def isNameChar (c : Char) : Bool :=
  ('a' ≤ c && c ≤ 'z') || ('A' ≤ c && c ≤ 'Z') || ('0' ≤ c && c ≤ '9') || c = '_' || c = '-'

/-- Whether a codespace name passes the `^[a-zA-Z0-9_-]+$` test (the regex
requires at least one character and every character in the class). -/
def validNameB (name : Str) : Bool := !name.isEmpty && name.all isNameChar

/-- Message of the error thrown when a name fails validation (identical in
all five name-taking operations). -/
def invalidNameMsg : Str := ("Invalid codespace name format").toList

/-- Outcome of one `execAsync` invocation: success with its stdout, or
failure carrying the process stderr and the JS error message. -/
inductive ExecResult where
  | success (stdout : Str)
  | failure (stderr msg : Str)
deriving DecidableEq

/-- The `error.stderr || error.message`: the first non-empty (truthy) of the
two strings. -/
def errText (stderr msg : Str) : Str := if stderr.isEmpty then msg else stderr

/-- The `GhService.startCodespace`, with the result of the `gh api` call as
input.  A failure whose text mentions `already running` / `already started`
is swallowed and treated as success. -/
def startCodespace (name : Str) (res : ExecResult) : Except Str Unit :=
  if validNameB name = false then Except.error invalidNameMsg
  else
    match res with
    | ExecResult.success _ => Except.ok ()
    | ExecResult.failure st m =>
        if containsStr (errText st m) (("already running").toList)
            || containsStr (errText st m) (("already started").toList) then Except.ok ()
        else Except.error (("Failed to start codespace: ").toList ++ m)

/-- The `GhService.stopCodespace`: failures mentioning `already stopped` /
`not running` are treated as success. -/
def stopCodespace (name : Str) (res : ExecResult) : Except Str Unit :=
  if validNameB name = false then Except.error invalidNameMsg
  else
    match res with
    | ExecResult.success _ => Except.ok ()
    | ExecResult.failure st m =>
        if containsStr (errText st m) (("already stopped").toList)
            || containsStr (errText st m) (("not running").toList) then Except.ok ()
        else Except.error (("Failed to stop codespace: ").toList ++ m)

/-- The `GhService.deleteCodespace`: its catch-block rethrows every failure;
there is no already-deleted escape hatch. -/
def deleteCodespace (name : Str) (res : ExecResult) : Except Str Unit :=
  if validNameB name = false then Except.error invalidNameMsg
  else
    match res with
    | ExecResult.success _ => Except.ok ()
    | ExecResult.failure _ m => Except.error (("Failed to delete codespace: ").toList ++ m)

/-- The `maxAttempts` in `ensureCodespaceAvailable`. -/
def maxAttempts : Nat := 150

/-- The `pollInterval` (milliseconds) in `ensureCodespaceAvailable`. -/
def pollIntervalMs : Nat := 2000

/-- The state string that ends the wait (compared with `===`). -/
def availableState : Str := ("Available").toList

/-- The `codespaces.find(cs => cs.name === codespaceName)`. -/
def findCodespace (l : List Codespace) (name : Str) : Option Codespace :=
  l.find? (fun cs => cs.name == name)

/-- The state reported in the timeout message:
`(await this.listCodespaces()).find(...)?.state || 'Unknown'`. -/
def stateDescr (l : List Codespace) (name : Str) : Str :=
  ((findCodespace l name).map Codespace.state).getD (("Unknown").toList)

/-- The timeout error message (`timeoutMinutes` evaluates to `5`). -/
def timeoutMsg (st : Str) : Str :=
  ("Codespace did not become available within 5 minutes. Current state may be: ").toList
    ++ st
    ++ (". The codespace may still be starting - you can try connecting again in a moment.").toList

/-- The polling loop of `ensureCodespaceAvailable`.  `backend k` is the
codespace list returned by the `k`-th `listCodespaces` call of the overall
operation (the loop's attempt `i` performs call `i + 1`); `n` is the number
of remaining attempts.  Every loop branch other than finding the codespace
in state exactly `Available` sleeps and continues; exhausting the attempts
performs one more listing for the error message. -/
def pollAux (backend : Nat → List Codespace) (name : Str) : Nat → Nat → Except Str Unit
  | 0, k => Except.error (timeoutMsg (stateDescr (backend k) name))
  | n + 1, k =>
      match findCodespace (backend k) name with
      | some cs =>
          if cs.state = availableState then Except.ok ()
          else pollAux backend name n (k + 1)
      | none => pollAux backend name n (k + 1)

/-- The `GhService.ensureCodespaceAvailable`.  The pre-loop phase (listing call
`0`, and a `startCodespace` attempt whose errors are caught and only logged)
has no effect on the returned value, so the result is the polling loop run
for `maxAttempts` attempts starting at listing call `1`. -/
def ensureCodespaceAvailable (backend : Nat → List Codespace) (name : Str) : Except Str Unit :=
  if validNameB name = false then Except.error invalidNameMsg
  else pollAux backend name maxAttempts 1

/-- Outcome of the Linux identity-key check inside `generateSshConfig`
(filesystem probing and key-generation side effects, abstracted as an
oracle on the generated configuration text). -/
inductive KeyEnsureResult where
  | ok
  | fail (msg : Str)
deriving DecidableEq

/-- The catch-block of `generateSshConfig`: failures mentioning `sshd` or
`SSH` become the sentinel `SSHD_NOT_CONFIGURED` error. -/
def classifyGenError (st m : Str) : Except Str Str :=
  if containsStr (errText st m) (("sshd").toList) || containsStr (errText st m) (("SSH").toList) then
    Except.error (("SSHD_NOT_CONFIGURED").toList)
  else Except.error (("Failed to generate SSH config: ").toList ++ m)

/-- The `GhService.generateSshConfig`: name validation, then the
`gh codespace ssh --config` call, then the key-file check; a thrown
key-check error reaches the same catch-block with an empty stderr. -/
def generateSshConfig (name : Str) (res : ExecResult) (keyCheck : Str → KeyEnsureResult) :
    Except Str Str :=
  if validNameB name = false then Except.error invalidNameMsg
  else
    match res with
    | ExecResult.failure st m => classifyGenError st m
    | ExecResult.success cfg =>
        match keyCheck cfg with
        | KeyEnsureResult.ok => Except.ok cfg
        | KeyEnsureResult.fail m => classifyGenError [] m

/-- A JS `Error` as observed by callers: its `name` and `message`. -/
structure JsError where
  name : Str
  message : Str
deriving DecidableEq

/-- The classified authentication error
(`authError.name = 'AuthenticationError'`, message `AUTHENTICATION_REQUIRED`). -/
def authJsError : JsError :=
  { name := ("AuthenticationError").toList, message := ("AUTHENTICATION_REQUIRED").toList }

/-- The classified scope error. -/
def scopeJsError : JsError :=
  { name := ("ScopeError").toList, message := ("SCOPE_REQUIRED").toList }

/-- The `error.stderr || error.stdout || error.message || ''`. -/
def firstTruthy (stderr stdout msg : Str) : Str :=
  if stderr.isEmpty then (if stdout.isEmpty then msg else stdout) else stderr

/-- The catch-block of `GhService.listCodespaces`: lower-cases the combined
error text and pattern-matches it against the authentication substrings,
then the scope substrings, falling through to a generic error. -/
def classifyListError (stderr stdout msg : Str) : JsError :=
  let m := toLowerStr (firstTruthy stderr stdout msg)
  if containsStr m (("not logged in").toList)
      || containsStr m (("authentication required").toList)
      || containsStr m (("you are not logged into any github hosts").toList)
      || containsStr m (("please run: gh auth login").toList)
      || containsStr m (("gh auth login").toList)
      || (containsStr m (("to get started").toList) && containsStr m (("gh auth login").toList)) then
    authJsError
  else if containsStr m (("required scope").toList)
      || containsStr m (("missing required scope").toList)
      || (containsStr m (("needs the").toList) && containsStr m (("scope").toList))
      || containsStr m (("needs the \"codespace\" scope").toList)
      || (containsStr m (("insufficient").toList) && containsStr m (("scope").toList))
      || (containsStr m (("permission").toList) && containsStr m (("codespace").toList))
      || (containsStr m (("403").toList) && containsStr m (("scope").toList)) then
    scopeJsError
  else { name := ("Error").toList, message := ("Failed to list codespaces: ").toList ++ msg }

/-! ## CodespaceExplorerProvider (src/src/codespaceExplorer.ts) -/

/-- The `TRANSITIONAL_STATES` from the source. -/
def transitionalStates : List Str :=
  [("Starting").toList, ("Stopping").toList, ("ShuttingDown").toList,
   ("Provisioning").toList, ("Rebuilding").toList, ("Updating").toList,
   ("Awaiting").toList, ("Queued").toList, ("Exporting").toList,
   ("Pending").toList, ("Creating").toList]

/-- The `CodespaceExplorerProvider.isTransitionalState`: case-insensitive
substring match against the transitional-state list. -/
def isTransitionalState (state : Str) : Bool :=
  transitionalStates.any (fun s => containsStr (toLowerStr state) (toLowerStr s))

/-- The `ERROR_POLL_INTERVAL_MS`. -/
def errorPollIntervalMs : Nat := 3000

/-- The `TRANSITIONAL_POLL_INTERVAL_MS`. -/
def transitionalPollIntervalMs : Nat := 10000

/-- The provider's timer state: `some i` when a refresh timer with interval
`i` milliseconds is active, `none` otherwise.  At most one timer exists. -/
abbrev PollState := Option Nat

/-- The `CodespaceExplorerProvider.startPolling`: a no-op when a timer is
already active, otherwise installs a timer at the requested interval. -/
def startPolling (st : PollState) (intervalMs : Nat) : PollState :=
  match st with
  | some h => some h
  | none => some intervalMs

/-- The `CodespaceExplorerProvider.stopPolling`. -/
def stopPolling (_ : PollState) : PollState := none

/-- The tree items `getChildren` can produce. -/
inductive Item where
  | installCli
  | remoteContainersIncompat
  | authRequired
  | scopeRequired
  | remoteSshRequired
  | createNew
  | codespaceItem (cs : Codespace) (isConnecting : Bool)
deriving DecidableEq

/-- The `CodespaceExplorerProvider.getChildren` at the root, as a pure function
of the capability checks, the enumeration outcome, the connecting-set and
the current timer state; returns the produced items and the timer state
left behind. -/
def getChildren (ghInstalled hasIncompat remoteSshAvail : Bool)
    (listRes : Except JsError (List Codespace)) (connecting : List Str)
    (st : PollState) : List Item × PollState :=
  if ghInstalled = false then ([Item.installCli], st)
  else if hasIncompat then
    ([Item.remoteContainersIncompat], startPolling (stopPolling st) errorPollIntervalMs)
  else
    match listRes with
    | Except.error e =>
        if e.name = ("AuthenticationError").toList
            ∨ e.message = ("AUTHENTICATION_REQUIRED").toList then
          ([Item.authRequired], startPolling (stopPolling st) errorPollIntervalMs)
        else if e.name = ("ScopeError").toList ∨ e.message = ("SCOPE_REQUIRED").toList then
          ([Item.scopeRequired], startPolling (stopPolling st) errorPollIntervalMs)
        else ([], stopPolling st)
    | Except.ok codespaces =>
        if remoteSshAvail = false then
          ([Item.remoteSshRequired], startPolling (stopPolling st) errorPollIntervalMs)
        else
          let hasTransitional := codespaces.any (fun cs => isTransitionalState cs.state)
          let st' :=
            if hasTransitional then startPolling (stopPolling st) transitionalPollIntervalMs
            else stopPolling st
          (Item.createNew ::
             codespaces.map (fun cs => Item.codespaceItem cs (connecting.contains cs.name)),
           st')

/-! ## connectToCodespace host-name preparation (src/src/extension.ts, step 8) -/

/-- First rejection message of the repository check. -/
def invalidRepoFormatMsg (repo : Str) : Str :=
  ("Invalid repository format: ").toList ++ repo ++ (". Expected format: owner/repo-name").toList

/-- Second rejection message (empty segment after the first slash). -/
def invalidRepoNameMsg (repo : Str) : Str :=
  ("Invalid repository format: ").toList ++ repo ++ (". Could not extract repo name.").toList

/-- Step 8 of `connectToCodespace`: reject a missing or slash-free
repository string, then derive the SSH host alias
(`repository.replace('/', '-')`, first occurrence only) and the bare
repository name (`repository.split('/')[1]`, rejected if falsy). -/
def prepareHostNames (repo : Str) : Except Str (Str × Str) :=
  if repo.isEmpty || !(repo.contains '/') then Except.error (invalidRepoFormatMsg repo)
  else
    let repoName := replaceFirstChar repo '/' '-'
    match (splitOnChar '/' repo)[1]? with
    | none => Except.error (invalidRepoNameMsg repo)
    | some s => if s.isEmpty then Except.error (invalidRepoNameMsg repo) else Except.ok (repoName, s)

/-- The prefix parts that can precede a managed block in a merged file:
empty, or marker-free content followed by a newline. -/
def cleanPrefixPart (P : Str) : Prop :=
  P = [] ∨ ∃ C0, P = C0 ++ ['\n'] ∧
    (∀ j, ¬ startMarker <+: C0.drop j) ∧ (∀ j, ¬ endMarker <+: C0.drop j)

/-- A backend that forever reports the codespace in state `Starting`. -/
def timeoutDemoBackend : Nat → List Codespace := fun _ =>
  [{ name := ("abc").toList, displayName := ("abc").toList,
     state := ("Starting").toList, repository := ("o/r").toList }]

/-- A backend that forever reports the lowercase state `available`. -/
def lowercaseDemoBackend : Nat → List Codespace := fun _ =>
  [{ name := ("abc").toList, displayName := ("abc").toList,
     state := ("available").toList, repository := ("o/r").toList }]

/-! ## Characterization of firstIndex in terms of substring occurrences -/

/-- The `firstIndex` returns `none` exactly when the needle occurs at no
position of the haystack. -/
theorem firstIndex_eq_none_iff (hay needle : Str) :
    firstIndex hay needle = none ↔ ∀ i, ¬ needle <+: hay.drop i := by
  induction hay with
  | nil =>
      constructor
      · intro h i hp
        rw [List.drop_nil] at hp
        have hn : needle = [] := List.prefix_nil.mp hp
        subst hn
        simp [firstIndex] at h
      · intro h
        have hn : ¬ needle <+: ([] : Str) := by simpa using h 0
        simp only [firstIndex]
        rw [if_neg]
        intro hp
        exact hn (List.isPrefixOf_iff_prefix.mp hp)
  | cons c rest ih =>
      by_cases hp : needle.isPrefixOf (c :: rest)
      · simp only [firstIndex, hp, if_pos]
        constructor
        · intro h; exact absurd h (by simp)
        · intro h
          exact absurd (List.isPrefixOf_iff_prefix.mp hp) (by simpa using h 0)
      · simp only [firstIndex, hp, if_neg, Bool.false_eq_true, not_false_iff]
        rw [Option.map_eq_none']
        rw [ih]
        constructor
        · intro h i hocc
          match i with
          | 0 =>
              exact hp (List.isPrefixOf_iff_prefix.mpr (by simpa using hocc))
          | j + 1 =>
              exact h j (by simpa [List.drop_succ_cons] using hocc)
        · intro h j hocc
          exact h (j + 1) (by simpa [List.drop_succ_cons] using hocc)

/-- The `firstIndex` returns `some n` exactly when the needle occurs at `n`
and at no earlier position. -/
theorem firstIndex_eq_some_iff (hay needle : Str) (n : Nat) :
    firstIndex hay needle = some n ↔
      (needle <+: hay.drop n ∧ ∀ j, j < n → ¬ needle <+: hay.drop j) := by
  induction hay generalizing n with
  | nil =>
      by_cases hp : needle.isPrefixOf ([] : Str)
      · have hn : needle = [] := List.prefix_nil.mp (List.isPrefixOf_iff_prefix.mp hp)
        subst hn
        simp only [firstIndex, hp, if_pos, List.drop_nil, List.nil_prefix, true_and]
        constructor
        · intro h
          have : n = 0 := by simpa using h.symm
          subst this
          intro j hj
          omega
        · intro h
          match n with
          | 0 => rfl
          | m + 1 => exact absurd (h 0 (by omega)) (by simp [ List.nil_prefix])
      · have hnp : ¬ needle <+: ([] : Str) := fun hx => hp (List.isPrefixOf_iff_prefix.mpr hx)
        simp only [firstIndex, hp, if_neg, Bool.false_eq_true, not_false_iff]
        constructor
        · intro h; exact absurd h (by simp)
        · intro h
          exact absurd h.1 (by simpa using hnp)
  | cons c rest ih =>
      by_cases hp : needle.isPrefixOf (c :: rest)
      · simp only [firstIndex, hp, if_pos]
        constructor
        · intro h
          have hn : n = 0 := by simpa using h.symm
          subst hn
          refine ⟨by simpa using (List.isPrefixOf_iff_prefix.mp hp), ?_⟩
          intro j hj
          omega
        · intro h
          match n with
          | 0 => rfl
          | m + 1 =>
              exact absurd (List.isPrefixOf_iff_prefix.mp hp)
                (by simpa using h.2 0 (by omega))
      · simp only [firstIndex, hp, if_neg, Bool.false_eq_true, not_false_iff]
        have hnp : ¬ needle <+: (c :: rest) := fun hx => hp (List.isPrefixOf_iff_prefix.mpr hx)
        cases n with
        | zero =>
            constructor
            · intro h
              rcases Option.map_eq_some'.mp h with ⟨m, _, hm⟩
              omega
            · intro h
              exact absurd h.1 (by simpa using hnp)
        | succ m =>
            rw [Option.map_eq_some']
            constructor
            · rintro ⟨k, hk, hke⟩
              obtain rfl : m = k := by omega
              rcases (ih m).mp hk with ⟨h1, h2⟩
              refine ⟨by simpa [List.drop_succ_cons] using h1, ?_⟩
              intro j hj
              cases j with
              | zero => simpa using hnp
              | succ i =>
                  rw [List.drop_succ_cons]
                  exact h2 i (by omega)
            · rintro ⟨h1, h2⟩
              refine ⟨m, (ih m).mpr ⟨by simpa [List.drop_succ_cons] using h1, ?_⟩, rfl⟩
              intro j hj
              have := h2 (j + 1) (by omega)
              simpa [List.drop_succ_cons] using this

/-- An occurrence entirely inside the left part of an append is an
occurrence in the left part. -/
theorem occurrence_in_left {needle xs ys : Str} {i : Nat}
    (h : needle <+: (xs ++ ys).drop i) (hlen : i + needle.length ≤ xs.length) :
    needle <+: xs.drop i := by
  have hi : i ≤ xs.length := by omega
  rw [List.drop_append_eq_append_drop, Nat.sub_eq_zero_of_le hi, List.drop_zero] at h
  rw [List.prefix_iff_eq_take] at h ⊢
  rw [List.take_append_eq_append_take] at h
  have hl : (xs.drop i).length = xs.length - i := List.length_drop i xs
  have hz : needle.length - (xs.drop i).length = 0 := by omega
  rw [hz, List.take_zero, List.append_nil] at h
  exact h

/-- Dropping past the left part of an append lands in the right part. -/
theorem drop_append_of_le {xs ys : Str} {i : Nat} (hi : xs.length ≤ i) :
    (xs ++ ys).drop i = ys.drop (i - xs.length) := by
  rw [List.drop_append_eq_append_drop, List.drop_eq_nil_of_le hi, List.nil_append]

/-- An occurrence in `xs` is an occurrence in `xs ++ ys`. -/
theorem occurrence_extend {needle xs : Str} (ys : Str) {i : Nat}
    (h : needle <+: xs.drop i) : needle <+: (xs ++ ys).drop i := by
  by_cases hi : i ≤ xs.length
  · rw [List.drop_append_eq_append_drop, Nat.sub_eq_zero_of_le hi, List.drop_zero]
    exact h.trans (List.prefix_append _ _)
  · rw [List.drop_eq_nil_of_le (by omega)] at h
    have hn : needle = [] := List.prefix_nil.mp h
    subst hn
    exact List.nil_prefix

/-- A needle that does not contain the character `c` cannot straddle the
`c`-boundary of `xs ++ c :: ys`: every occurrence lies entirely on one side. -/
theorem occurrence_split {needle xs ys : Str} {c : Char} {i : Nat}
    (hc : c ∉ needle)
    (h : needle <+: (xs ++ c :: ys).drop i) :
    i + needle.length ≤ xs.length ∨ xs.length + 1 ≤ i := by
  by_contra hcon
  push_neg at hcon
  obtain ⟨h1, h2⟩ := hcon
  have hi : i ≤ xs.length := by omega
  have hkn : xs.length - i < needle.length := by omega
  apply hc
  have hdl : xs.length - i < ((xs ++ c :: ys).drop i).length := by
    rw [List.length_drop]
    simp only [List.length_append, List.length_cons]
    omega
  have heq1 : needle[xs.length - i] = ((xs ++ c :: ys).drop i)[xs.length - i] :=
    h.getElem hkn
  rw [List.getElem_drop] at heq1
  have hix : i + (xs.length - i) = xs.length := by omega
  simp only [hix] at heq1
  rw [List.getElem_append_right (Nat.le_refl xs.length)] at heq1
  simp only [Nat.sub_self, List.getElem_cons_zero] at heq1
  rw [← heq1]
  exact List.getElem_mem hkn

/-! ## Facts about the markers -/

theorem startMarker_ne_nil : startMarker ≠ [] := by decide

theorem endMarker_ne_nil : endMarker ≠ [] := by decide

theorem newline_not_mem_startMarker : '\n' ∉ startMarker := by decide

theorem newline_not_mem_endMarker : '\n' ∉ endMarker := by decide

theorem endMarker_not_in_startMarker : firstIndex startMarker endMarker = none := by decide

theorem startMarker_length : startMarker.length = 43 := by decide

theorem endMarker_length : endMarker.length = 33 := by decide

/-! ## Structure of merged output -/

/-- The `extractManagedSection` on marker-free content returns the content
unchanged as the "before" part. -/
theorem extractManagedSection_none (C : Str)
    (h : firstIndex C startMarker = none ∨ firstIndex C endMarker = none) :
    extractManagedSection C = (C, [], []) := by
  unfold extractManagedSection
  rcases h with h | h
  · rw [h]
  · rw [h]
    cases firstIndex C startMarker <;> rfl

/-- Assembly step of `mergeConfig`: with an empty "after" part, filtering
and joining produce the "before" part (when non-empty), a blank-line
separator, the managed block, and a final newline. -/
theorem merge_assemble (B C : Str) :
    joinNN ([C, managedSectionOf B, []].filter (fun p => !p.isEmpty)) ++ ['\n'] =
      (if C.isEmpty then [] else C ++ ['\n', '\n']) ++ managedSectionOf B ++ ['\n'] := by
  have hm2 : managedSectionOf B ≠ [] :=
    List.append_ne_nil_of_left_ne_nil startMarker_ne_nil _
  have hm : (managedSectionOf B).isEmpty = false := by
    cases hq : (managedSectionOf B).isEmpty with
    | false => rfl
    | true => exact absurd (List.isEmpty_iff.mp hq) hm2
  by_cases hC : C.isEmpty = true
  · have hCnil : C = [] := List.isEmpty_iff.mp hC
    subst hCnil
    simp [List.filter, hm, joinNN]
  · have hCfalse : C.isEmpty = false := by
      cases hq : C.isEmpty with
      | false => rfl
      | true => exact absurd hq hC
    simp [List.filter, hm, hCfalse, joinNN]

/-- Merging into marker-free content appends a fresh managed block after
the (unmodified, untrimmed) existing content. -/
theorem mergeConfigText_no_marker (B C : Str)
    (h : firstIndex C startMarker = none ∨ firstIndex C endMarker = none) :
    mergeConfigText B C =
      (if C.isEmpty then [] else C ++ ['\n', '\n']) ++ managedSectionOf B ++ ['\n'] := by
  unfold mergeConfigText
  rw [extractManagedSection_none C h]
  exact merge_assemble B C

/-- Appending a newline to content without occurrences of a newline-free,
non-empty needle keeps it occurrence-free. -/
theorem no_occurrence_append_newline {C M : Str} (hM : M ≠ []) (hnl : '\n' ∉ M)
    (h : ∀ j, ¬ M <+: C.drop j) : ∀ j, ¬ M <+: (C ++ ['\n']).drop j := by
  intro j hpre
  have h2 : M <+: (C ++ '\n' :: []).drop j := by simpa using hpre
  rcases occurrence_split hnl h2 with hc | hc
  · exact h j (occurrence_in_left h2 hc)
  · have hlen : (C ++ ['\n']).length ≤ j := by
      simp only [List.length_append, List.length_cons, List.length_nil]
      omega
    rw [List.drop_eq_nil_of_le hlen] at hpre
    exact hM (List.prefix_nil.mp hpre)

/-- In a merged file the first start marker sits right after the prefix
part. -/
theorem firstIndex_merged_start (P B2 : Str) (hP : cleanPrefixPart P) :
    firstIndex (P ++ (startMarker ++ '\n' :: (B2 ++ '\n' :: (endMarker ++ ['\n']))))
      startMarker = some P.length := by
  apply (firstIndex_eq_some_iff _ _ _).mpr
  constructor
  · rw [List.drop_left]
    exact List.prefix_append _ _
  · intro j hj hpre
    rcases hP with hP | ⟨C0, rfl, hS, _⟩
    · subst hP
      simp at hj
    · have hpre2 : startMarker <+:
          (C0 ++ '\n' :: (startMarker ++ '\n' :: (B2 ++ '\n' :: (endMarker ++ ['\n'])))).drop j := by
        simpa [List.append_assoc] using hpre
      rcases occurrence_split newline_not_mem_startMarker hpre2 with hc | hc
      · exact hS j (occurrence_in_left hpre2 hc)
      · rw [List.length_append] at hj
        simp at hj
        omega

/-- In a merged file the first end marker is the one closing the managed
block, provided the block body is end-marker-free. -/
theorem firstIndex_merged_end (P B2 : Str) (hP : cleanPrefixPart P)
    (hB : ∀ j, ¬ endMarker <+: B2.drop j) :
    firstIndex (P ++ (startMarker ++ '\n' :: (B2 ++ '\n' :: (endMarker ++ ['\n']))))
      endMarker = some (P.length + startMarker.length + 1 + B2.length + 1) := by
  apply (firstIndex_eq_some_iff _ _ _).mpr
  constructor
  · have hshape : P ++ (startMarker ++ '\n' :: (B2 ++ '\n' :: (endMarker ++ ['\n'])))
        = (P ++ (startMarker ++ '\n' :: (B2 ++ ['\n']))) ++ (endMarker ++ ['\n']) := by
      simp [List.append_assoc]
    have hlen : (P ++ (startMarker ++ '\n' :: (B2 ++ ['\n']))).length
        = P.length + startMarker.length + 1 + B2.length + 1 := by
      simp only [List.length_append, List.length_cons, List.length_nil]
      omega
    rw [hshape, ← hlen, List.drop_left]
    exact List.prefix_append _ _
  · intro j hj hpre
    by_cases hjP : j < P.length
    · rcases hP with hP | ⟨C0, rfl, _, hE⟩
      · subst hP
        simp at hjP
      · have hpre2 : endMarker <+:
            (C0 ++ '\n' :: (startMarker ++ '\n' :: (B2 ++ '\n' :: (endMarker ++ ['\n'])))).drop j := by
          simpa [List.append_assoc] using hpre
        rcases occurrence_split newline_not_mem_endMarker hpre2 with hc | hc
        · exact hE j (occurrence_in_left hpre2 hc)
        · rw [List.length_append] at hjP
          simp at hjP
          omega
    · push_neg at hjP
      rw [drop_append_of_le hjP] at hpre
      rcases occurrence_split newline_not_mem_endMarker hpre with hc | hc
      · exact (firstIndex_eq_none_iff startMarker endMarker).mp endMarker_not_in_startMarker
          (j - P.length) (occurrence_in_left hpre hc)
      · have hshape2 : startMarker ++ '\n' :: (B2 ++ '\n' :: (endMarker ++ ['\n']))
            = (startMarker ++ ['\n']) ++ (B2 ++ '\n' :: (endMarker ++ ['\n'])) := by
          simp [List.append_assoc]
        have hlen2 : (startMarker ++ ['\n']).length = startMarker.length + 1 := by
          simp
        have hle : (startMarker ++ ['\n']).length ≤ j - P.length := by omega
        rw [hshape2, drop_append_of_le hle] at hpre
        rcases occurrence_split newline_not_mem_endMarker hpre with hc2 | hc2
        · exact hB _ (occurrence_in_left hpre hc2)
        · rw [hlen2] at hc2
          rw [hlen2] at hle
          omega

theorem containsStr_eq_false_iff (hay needle : Str) :
    containsStr hay needle = false ↔ firstIndex hay needle = none := by
  unfold containsStr
  cases firstIndex hay needle <;> simp

theorem dropWhile_cons_newline (l : Str) :
    List.dropWhile isJsWhitespace ('\n' :: l) = List.dropWhile isJsWhitespace l := by
  rw [List.dropWhile_cons, if_pos]
  decide

theorem trimEnd_append_newline (C : Str) : trimEnd (C ++ ['\n']) = trimEnd C := by
  unfold trimEnd
  rw [List.reverse_append]
  have h : (['\n'] : Str).reverse ++ C.reverse = '\n' :: C.reverse := by simp
  rw [h, dropWhile_cons_newline]

theorem jsSubstring_zero (s : Str) (b : Nat) : jsSubstring s 0 b = s.take b := by
  simp [jsSubstring]

theorem mergeConfigText_def (B cur : Str) :
    mergeConfigText B cur =
      joinNN ([(extractManagedSection cur).1, managedSectionOf B,
               (extractManagedSection cur).2.2].filter (fun p => !p.isEmpty)) ++ ['\n'] := rfl

theorem extractManagedSection_eq_of (config : Str) (s e : Nat)
    (hs : firstIndex config startMarker = some s)
    (he : firstIndex config endMarker = some e) :
    extractManagedSection config =
      (trimEnd (jsSubstring config 0 s),
       jsSubstring config s (e + endMarker.length),
       trimStart (config.drop (e + endMarker.length))) := by
  unfold extractManagedSection
  rw [hs, he]

/-- On the output of a merge into clean content, a second extraction
recovers exactly the original content as "before" and nothing as "after". -/
theorem extractManagedSection_merged (B C : Str)
    (hCS : firstIndex C startMarker = none) (hCE : firstIndex C endMarker = none)
    (hTE : trimEnd C = C) (hB : firstIndex (trimStr B) endMarker = none) :
    (extractManagedSection (mergeConfigText B C)).1 = C ∧
      (extractManagedSection (mergeConfigText B C)).2.2 = [] := by
  have hO1 := mergeConfigText_no_marker B C (Or.inl hCS)
  set P : Str := if C.isEmpty then [] else C ++ ['\n', '\n'] with hPdef
  have hshape : mergeConfigText B C
      = P ++ (startMarker ++ '\n' :: (trimStr B ++ '\n' :: (endMarker ++ ['\n']))) := by
    rw [hO1]
    simp [managedSectionOf, List.append_assoc]
  have hPclean : cleanPrefixPart P := by
    by_cases hC : C.isEmpty = true
    · left
      simp [hPdef, hC]
    · right
      refine ⟨C ++ ['\n'], ?_, ?_, ?_⟩
      · simp [hPdef, hC, List.append_assoc]
      · exact no_occurrence_append_newline startMarker_ne_nil newline_not_mem_startMarker
          ((firstIndex_eq_none_iff _ _).mp hCS)
      · exact no_occurrence_append_newline endMarker_ne_nil newline_not_mem_endMarker
          ((firstIndex_eq_none_iff _ _).mp hCE)
  have hA := firstIndex_merged_start P (trimStr B) hPclean
  have hEnd := firstIndex_merged_end P (trimStr B) hPclean ((firstIndex_eq_none_iff _ _).mp hB)
  rw [hshape]
  rw [extractManagedSection_eq_of _ _ _ hA hEnd]
  constructor
  · show trimEnd (jsSubstring _ 0 P.length) = C
    rw [jsSubstring_zero, List.take_left]
    by_cases hC : C.isEmpty = true
    · have hCnil : C = [] := List.isEmpty_iff.mp hC
      subst hCnil
      simp [hPdef]
      rfl
    · have hP2 : P = (C ++ ['\n']) ++ ['\n'] := by
        simp [hPdef, hC, List.append_assoc]
      rw [hP2, trimEnd_append_newline, trimEnd_append_newline, hTE]
  · show trimStart (List.drop _ _) = []
    have hsh3 : P ++ (startMarker ++ '\n' :: (trimStr B ++ '\n' :: (endMarker ++ ['\n'])))
        = (P ++ (startMarker ++ '\n' :: (trimStr B ++ '\n' :: endMarker))) ++ ['\n'] := by
      simp [List.append_assoc]
    have hlL : (P ++ (startMarker ++ '\n' :: (trimStr B ++ '\n' :: endMarker))).length
        = P.length + startMarker.length + 1 + (trimStr B).length + 1 + endMarker.length := by
      simp only [List.length_append, List.length_cons]
      omega
    rw [hsh3, ← hlL, List.drop_left]
    decide

/-! ## Claim C1: merge idempotence -/

/-- C1 (counterexample): merge idempotence fails as universally stated.
For current content `"Host bar\n"` (no markers, trailing newline) and body
`"Host cs"`, the first merge keeps the trailing newline of the content and
adds a blank-line separator, while the second merge trims that whitespace,
so the two results differ byte-wise. -/
theorem C1_merge_not_idempotent_cex :
    mergeConfigText (("Host cs").toList)
        (mergeConfigText (("Host cs").toList) (("Host bar\n").toList))
      ≠ mergeConfigText (("Host cs").toList) (("Host bar\n").toList) := by
  decide

/-- C1 (amended): applying `mergeConfig` a second time with the same body
changes nothing, provided the original content contains neither marker and
has no trailing whitespace, and the trimmed body does not contain the end
marker.  (Without these restrictions idempotence fails: trailing whitespace
in marker-free content is trimmed only by the second run, and non-managed
content after the managed block gains an extra newline on every run.) -/
theorem C1_merge_idempotent_on_clean_input (B C : Str)
    (hCS : containsStr C startMarker = false)
    (hCE : containsStr C endMarker = false)
    (hTE : trimEnd C = C)
    (hB : containsStr (trimStr B) endMarker = false) :
    mergeConfigText B (mergeConfigText B C) = mergeConfigText B C := by
  rw [containsStr_eq_false_iff] at hCS hCE hB
  have hext := extractManagedSection_merged B C hCS hCE hTE hB
  rw [mergeConfigText_def B (mergeConfigText B C), hext.1, hext.2]
  rw [merge_assemble]
  exact (mergeConfigText_no_marker B C (Or.inl hCS)).symm

/-- C1 (witness): the amended idempotence theorem applied at the concrete
content `"Host a"` and body `"Host b"`. -/
theorem C1_merge_idempotent_witness :
    mergeConfigText (("Host b").toList)
        (mergeConfigText (("Host b").toList) (("Host a").toList))
      = mergeConfigText (("Host b").toList) (("Host a").toList) :=
  C1_merge_idempotent_on_clean_input (("Host b").toList) (("Host a").toList)
    (by decide) (by decide) (by decide) (by decide)

/-! ## Claim C2: non-managed preservation -/

/-- C2: merging a body `B` into content `C` that contains neither marker
yields exactly `C` itself (entirely unmodified — not even trailing
whitespace is touched in this case), followed by a blank-line separator,
one single marker-delimited managed block containing the trimmed body, and
a final newline.  Outside the newly inserted marker pair the output is
exactly the bytes of `C`, and the only managed block is the inserted one. -/
theorem C2_unmanaged_content_preserved (B C : Str)
    (hCS : containsStr C startMarker = false)
    (hCE : containsStr C endMarker = false) :
    mergeConfigText B C =
      (if C.isEmpty then [] else C ++ ['\n', '\n']) ++
        (startMarker ++ '\n' :: trimStr B ++ '\n' :: endMarker) ++ ['\n'] := by
  rw [containsStr_eq_false_iff] at hCS hCE
  exact mergeConfigText_no_marker B C (Or.inl hCS)

/-- C2 (witness): the preservation theorem applied at the concrete content
`"Host x"` and body `"cfg"`. -/
theorem C2_unmanaged_content_preserved_witness :
    mergeConfigText (("cfg").toList) (("Host x").toList) =
      (("Host x").toList ++ ['\n', '\n']) ++
        (startMarker ++ '\n' :: trimStr (("cfg").toList) ++ '\n' :: endMarker) ++ ['\n'] := by
  have h := C2_unmanaged_content_preserved (("cfg").toList) (("Host x").toList)
    (by decide) (by decide)
  simpa using h

/-! ## Claims C3 and C10: the availability polling loop -/

/-- When no listing ever shows the codespace in state exactly `Available`,
the polling loop exhausts its attempt budget and reports the timeout
message built from one final listing. -/
theorem pollAux_timeout (backend : Nat → List Codespace) (name : Str)
    (h : ∀ k cs, findCodespace (backend k) name = some cs → cs.state ≠ availableState) :
    ∀ n k, pollAux backend name n k
      = Except.error (timeoutMsg (stateDescr (backend (k + n)) name)) := by
  intro n
  induction n with
  | zero =>
      intro k
      simp [pollAux]
  | succ m ih =>
      intro k
      have hidx : k + 1 + m = k + (m + 1) := by omega
      unfold pollAux
      cases hf : findCodespace (backend k) name with
      | none =>
          rw [ih (k + 1), hidx]
      | some cs =>
          dsimp only
          rw [if_neg (h k cs hf), ih (k + 1), hidx]

/-- The polling loop succeeds exactly when some in-budget listing shows the
codespace with state exactly `Available`. -/
theorem pollAux_ok_iff (backend : Nat → List Codespace) (name : Str) :
    ∀ n k, pollAux backend name n k = Except.ok () ↔
      ∃ j, k ≤ j ∧ j < k + n ∧
        ∃ cs, findCodespace (backend j) name = some cs ∧ cs.state = availableState := by
  intro n
  induction n with
  | zero =>
      intro k
      constructor
      · intro h
        simp [pollAux] at h
      · rintro ⟨j, h1, h2, -⟩
        omega
  | succ m ih =>
      intro k
      unfold pollAux
      cases hf : findCodespace (backend k) name with
      | none =>
          rw [ih (k + 1)]
          constructor
          · rintro ⟨j, h1, h2, hcs⟩
            exact ⟨j, by omega, by omega, hcs⟩
          · rintro ⟨j, h1, h2, cs, hcs, hst⟩
            rcases Nat.eq_or_lt_of_le h1 with rfl | hlt
            · rw [hf] at hcs
              exact absurd hcs (by simp)
            · exact ⟨j, by omega, by omega, cs, hcs, hst⟩
      | some cs =>
          dsimp only
          by_cases hst : cs.state = availableState
          · rw [if_pos hst]
            constructor
            · intro _
              exact ⟨k, Nat.le_refl k, by omega, cs, hf, hst⟩
            · intro _
              rfl
          · rw [if_neg hst, ih (k + 1)]
            constructor
            · rintro ⟨j, h1, h2, hcs⟩
              exact ⟨j, by omega, by omega, hcs⟩
            · rintro ⟨j, h1, h2, cs2, hcs, hst2⟩
              rcases Nat.eq_or_lt_of_le h1 with rfl | hlt
              · rw [hf] at hcs
                exact absurd hst2 (Option.some.inj hcs ▸ hst)
              · exact ⟨j, by omega, by omega, cs2, hcs, hst2⟩

/-- Every run of the polling loop either succeeds or ends in the timeout
error; no other outcome exists. -/
theorem pollAux_ok_or_timeout (backend : Nat → List Codespace) (name : Str) :
    ∀ n k, pollAux backend name n k = Except.ok () ∨
      pollAux backend name n k
        = Except.error (timeoutMsg (stateDescr (backend (k + n)) name)) := by
  intro n
  induction n with
  | zero =>
      intro k
      right
      simp [pollAux]
  | succ m ih =>
      intro k
      have hidx : k + 1 + m = k + (m + 1) := by omega
      unfold pollAux
      cases hf : findCodespace (backend k) name with
      | none =>
          rcases ih (k + 1) with h | h
          · exact Or.inl h
          · right
            rw [h, hidx]
      | some cs =>
          dsimp only
          by_cases hst : cs.state = availableState
          · rw [if_pos hst]
            exact Or.inl rfl
          · rw [if_neg hst]
            rcases ih (k + 1) with h | h
            · exact Or.inl h
            · right
              rw [h, hidx]

/-- C3: with a valid name and a backend that never reports state
`Available` for it, `ensureCodespaceAvailable` terminates with the timeout
error after exactly the configured ceiling of `maxAttempts = 150` polls at
`pollInterval = 2000` ms (≈ 5 minutes); the error names the state observed
by one final listing (call number `maxAttempts + 1`, the last observation),
and the operation never returns successfully. -/
theorem C3_ensureAvailable_timeout_bound (backend : Nat → List Codespace) (name : Str)
    (hname : validNameB name = true)
    (h : ∀ k cs, findCodespace (backend k) name = some cs → cs.state ≠ availableState) :
    maxAttempts = 150 ∧ pollIntervalMs = 2000 ∧
      ensureCodespaceAvailable backend name
        = Except.error (timeoutMsg (stateDescr (backend (maxAttempts + 1)) name)) := by
  refine ⟨rfl, rfl, ?_⟩
  unfold ensureCodespaceAvailable
  rw [hname]
  rw [if_neg (by simp)]
  rw [pollAux_timeout backend name h maxAttempts 1, Nat.add_comm 1 maxAttempts]

/-- C3 (witness): the timeout theorem applied to a backend stuck on
`Starting`. -/
theorem C3_ensureAvailable_timeout_witness :
    ensureCodespaceAvailable timeoutDemoBackend (("abc").toList)
      = Except.error (timeoutMsg (("Starting").toList)) := by
  have hh : ∀ k cs, findCodespace (timeoutDemoBackend k) (("abc").toList) = some cs →
      cs.state ≠ availableState := by
    intro k cs hf
    have h0 : findCodespace (timeoutDemoBackend k) (("abc").toList)
        = some { name := ("abc").toList, displayName := ("abc").toList,
                 state := ("Starting").toList, repository := ("o/r").toList } := rfl
    rw [h0] at hf
    rw [← Option.some.inj hf]
    decide
  have h := C3_ensureAvailable_timeout_bound timeoutDemoBackend (("abc").toList) (by decide) hh
  rw [h.2.2]
  rfl

/-- C10: with a valid name, `ensureCodespaceAvailable` returns successfully
if and only if one of the 150 in-loop listings (calls 1 to `maxAttempts`)
finds the codespace with state exactly equal to the string `Available`
(case-sensitive whole-string equality); in every other run — including
states like `available` or `Available (healthy)` — it ends in the timeout
error built from one final listing. -/
theorem C10_ensureAvailable_ok_iff (backend : Nat → List Codespace) (name : Str)
    (hname : validNameB name = true) :
    (ensureCodespaceAvailable backend name = Except.ok () ↔
      ∃ k, 1 ≤ k ∧ k ≤ maxAttempts ∧
        ∃ cs, findCodespace (backend k) name = some cs ∧ cs.state = availableState) ∧
    (ensureCodespaceAvailable backend name = Except.ok () ∨
      ensureCodespaceAvailable backend name
        = Except.error (timeoutMsg (stateDescr (backend (maxAttempts + 1)) name))) := by
  have hdef : ensureCodespaceAvailable backend name = pollAux backend name maxAttempts 1 := by
    unfold ensureCodespaceAvailable
    rw [hname]
    rw [if_neg (by simp)]
  constructor
  · rw [hdef, pollAux_ok_iff backend name maxAttempts 1]
    constructor
    · rintro ⟨j, h1, h2, hcs⟩
      exact ⟨j, h1, by omega, hcs⟩
    · rintro ⟨j, h1, h2, hcs⟩
      exact ⟨j, h1, by omega, hcs⟩
  · rw [hdef]
    have := pollAux_ok_or_timeout backend name maxAttempts 1
    rcases this with h | h
    · exact Or.inl h
    · right
      rw [h, Nat.add_comm 1 maxAttempts]

/-- C10 (witness): a backend stuck on lowercase `available` never lets
`ensureCodespaceAvailable` return successfully. -/
theorem C10_ensureAvailable_ok_iff_witness :
    ensureCodespaceAvailable lowercaseDemoBackend (("abc").toList) ≠ Except.ok () := by
  intro hok
  have h := (C10_ensureAvailable_ok_iff lowercaseDemoBackend (("abc").toList) (by decide)).1
  rcases h.mp hok with ⟨k, -, -, cs, hcs, hst⟩
  have h0 : findCodespace (lowercaseDemoBackend k) (("abc").toList)
      = some { name := ("abc").toList, displayName := ("abc").toList,
               state := ("available").toList, repository := ("o/r").toList } := rfl
  rw [h0] at hcs
  rw [← Option.some.inj hcs] at hst
  exact absurd hst (by decide)

/-! ## Claim C4: repository validation in the connect flow -/

theorem contains_eq_false_iff (s : Str) (c : Char) : s.contains c = false ↔ c ∉ s := by
  constructor
  · intro h hm
    have h2 : s.contains c = true := List.elem_iff.mpr hm
    rw [h] at h2
    cases h2
  · intro h
    cases hq : s.contains c with
    | false => rfl
    | true => exact absurd (List.elem_iff.mp hq) h

theorem splitOnChar_no_sep (sep : Char) (s : Str) (h : sep ∉ s) :
    splitOnChar sep s = [s] := by
  induction s with
  | nil => rfl
  | cons c rest ih =>
      have hc : ¬ c = sep := fun e => h (e ▸ List.mem_cons_self c rest)
      have hr : sep ∉ rest := fun hm => h (List.mem_cons_of_mem c hm)
      simp [splitOnChar, hc, ih hr]

theorem splitOnChar_split (owner rest : Str) (h1 : '/' ∉ owner) (h2 : '/' ∉ rest) :
    splitOnChar '/' (owner ++ '/' :: rest) = [owner, rest] := by
  induction owner with
  | nil =>
      simp only [List.nil_append, splitOnChar, if_pos, splitOnChar_no_sep '/' rest h2]
  | cons c tl ih =>
      have hc : ¬ c = '/' := fun e => h1 (e ▸ List.mem_cons_self c tl)
      have htl : '/' ∉ tl := fun hm => h1 (List.mem_cons_of_mem c hm)
      simp [splitOnChar, hc, ih htl]

theorem replaceFirstChar_cross (owner rest : Str) (r : Char) (h : '/' ∉ owner) :
    replaceFirstChar (owner ++ '/' :: rest) '/' r = owner ++ r :: rest := by
  induction owner with
  | nil => simp [replaceFirstChar]
  | cons c tl ih =>
      have hc : ¬ c = '/' := fun e => h (e ▸ List.mem_cons_self c tl)
      have htl : '/' ∉ tl := fun hm => h (List.mem_cons_of_mem c hm)
      simp [replaceFirstChar, hc, ih htl]

/-- C4 (counterexample): a repository string with more than one `/` is not
rejected: `"a/b/c"` is accepted, only its first slash becomes a dash, and
the bare name is the middle segment. -/
theorem C4_multi_slash_accepted_cex :
    prepareHostNames (("a/b/c").toList)
      = Except.ok ((("a-b/c").toList), (("b").toList)) := by
  decide

/-- C4 (amended): the host-name preparation step of the connect flow
rejects a repository string containing no `/` at all with the
invalid-format error, and for an `owner/name` string whose two segments are
slash-free (name non-empty) it produces the alias with the `/` replaced by
`-` and the bare name after the slash.  (Validation happens only at this
step, after the availability and SSH-config backend calls, and a string
with more than one `/` passes the check.) -/
theorem C4_repository_validation (owner rname s : Str)
    (hs : '/' ∉ s) (ho : '/' ∉ owner) (hr : '/' ∉ rname) (hrne : rname ≠ []) :
    prepareHostNames s = Except.error (invalidRepoFormatMsg s) ∧
      prepareHostNames (owner ++ '/' :: rname)
        = Except.ok (owner ++ '-' :: rname, rname) := by
  constructor
  · unfold prepareHostNames
    rw [if_pos]
    rw [(contains_eq_false_iff s '/').mpr hs]
    simp
  · unfold prepareHostNames
    rw [if_neg]
    · rw [replaceFirstChar_cross owner rname '-' ho, splitOnChar_split owner rname ho hr]
      have h1 : ([owner, rname] : List Str)[1]? = some rname := rfl
      rw [h1]
      have hne : rname.isEmpty = false := by
        cases hq : rname.isEmpty with
        | false => rfl
        | true => exact absurd (List.isEmpty_iff.mp hq) hrne
      simp [hne]
    · have hmem : '/' ∈ owner ++ '/' :: rname := List.mem_append_right owner (List.mem_cons_self _ _)
      have hcontains : (owner ++ '/' :: rname).contains '/' = true := List.elem_iff.mpr hmem
      simp [hcontains]

/-- C4 (witness): the amended validation theorem at `"ownerrepo"` and
`"owner" ++ "/" ++ "repo"`. -/
theorem C4_repository_validation_witness :
    prepareHostNames (("ownerrepo").toList)
        = Except.error (invalidRepoFormatMsg (("ownerrepo").toList)) ∧
      prepareHostNames (("owner").toList ++ '/' :: ("repo").toList)
        = Except.ok ((("owner").toList ++ '-' :: ("repo").toList), ("repo").toList) :=
  C4_repository_validation (("owner").toList) (("repo").toList) (("ownerrepo").toList)
    (by decide) (by decide) (by decide) (by decide)

/-! ## Claim C5: polling active iff a transitional workspace is listed -/

/-- C5: after a successful enumeration with all prerequisites satisfied
(CLI installed, no incompatibility, Remote-SSH available), `getChildren`
returns the create-item followed by one item per codespace, and leaves a
timer active exactly when some listed codespace is in a transitional state
(case-insensitive substring match), at the transitional 10-second interval;
with no transitional codespace no timer remains.  The timer state is a
single optional handle, so at most one timer is ever active.  In
particular, state `Queued` is transitional. -/
theorem C5_polling_active_iff_transitional (l : List Codespace) (connecting : List Str)
    (st : PollState) :
    getChildren true false true (Except.ok l) connecting st =
      (Item.createNew :: l.map (fun cs => Item.codespaceItem cs (connecting.contains cs.name)),
       if l.any (fun cs => isTransitionalState cs.state) then some transitionalPollIntervalMs
       else none) ∧
      isTransitionalState (("Queued").toList) = true := by
  constructor
  · unfold getChildren
    by_cases h : l.any (fun cs => isTransitionalState cs.state) = true
    · simp [h, startPolling, stopPolling]
    · simp [h, startPolling, stopPolling]
  · decide

/-! ## Claim C6: first-write consent -/

/-- C6: when the current file content contains no managed block (no start
marker), `mergeConfig` asks for consent before writing; declining aborts
with the distinct user-declined error (the `User declined SSH config
modification` message re-wrapped by the merge catch-block, not a generic
I/O error) and writes nothing, while consenting writes the merged
content. -/
theorem C6_first_write_consent (current newCfg : Str)
    (h : containsStr current startMarker = false) :
    mergeConfig false current newCfg =
      Except.error (("Failed to merge SSH config: User declined SSH config modification").toList) ∧
      mergeConfig true current newCfg = Except.ok (mergeConfigText newCfg current) := by
  constructor
  · unfold mergeConfig
    rw [if_pos ⟨h, rfl⟩]
    decide
  · unfold mergeConfig
    rw [if_neg (fun hx => absurd hx.2 (by decide))]

/-- C6 (witness): the consent theorem applied to an empty current file. -/
theorem C6_first_write_consent_witness :
    mergeConfig false [] (("x").toList) =
      Except.error (("Failed to merge SSH config: User declined SSH config modification").toList) :=
  (C6_first_write_consent [] (("x").toList) (by decide)).1

/-! ## Claim C7: authentication-error classification -/

/-- C7: if the combined raw error text of a failed listing contains (case
insensitively) `you are not logged into any github hosts`, then
`listCodespaces` classifies it as the authentication error (name
`AuthenticationError`, message `AUTHENTICATION_REQUIRED`), and
`getChildren` then returns exactly the single authentication sentinel item
and starts polling at the 3-second error-recovery interval. -/
theorem C7_auth_error_classification (stderr stdout msg : Str) (rsa : Bool)
    (connecting : List Str) (st : PollState)
    (h : containsStr (toLowerStr (firstTruthy stderr stdout msg))
          (("you are not logged into any github hosts").toList) = true) :
    classifyListError stderr stdout msg = authJsError ∧
      getChildren true false rsa (Except.error (classifyListError stderr stdout msg))
          connecting st
        = ([Item.authRequired], some errorPollIntervalMs) := by
  have hcls : classifyListError stderr stdout msg = authJsError := by
    unfold classifyListError
    simp only [h, Bool.or_true, Bool.true_or, if_true]
  refine ⟨hcls, ?_⟩
  rw [hcls]
  unfold getChildren
  rw [if_neg (by simp)]
  rw [if_neg (by simp)]
  dsimp only
  rw [if_pos (Or.inl (show authJsError.name = ("AuthenticationError").toList from rfl))]
  rfl

/-- C7 (witness): the classification theorem applied to the concrete
mixed-case CLI message. -/
theorem C7_auth_error_classification_witness :
    classifyListError (("You are NOT logged into any GitHub hosts").toList) [] [] = authJsError ∧
      getChildren true false true
          (Except.error
            (classifyListError (("You are NOT logged into any GitHub hosts").toList) [] []))
          [] none
        = ([Item.authRequired], some errorPollIntervalMs) :=
  C7_auth_error_classification (("You are NOT logged into any GitHub hosts").toList) [] []
    true [] none (by decide)

/-! ## Claim C8: lifecycle idempotence on already-in-that-state -/

/-- C8 (counterexample): `deleteCodespace` is not idempotent on
already-deleted: every backend failure, including one reporting the
codespace as already deleted, is rethrown as an error instead of being
treated as success. -/
theorem C8_delete_not_idempotent_cex :
    deleteCodespace (("abc").toList)
        (ExecResult.failure (("already deleted").toList) (("already deleted").toList))
      = Except.error (("Failed to delete codespace: already deleted").toList) := by
  decide

/-- C8 (amended): for a valid name, `startCodespace` succeeds when the
failure text mentions `already running` or `already started`, and
`stopCodespace` succeeds when it mentions `already stopped` or
`not running`; `deleteCodespace`, by contrast, turns every backend failure
into an error — it has no already-deleted escape hatch. -/
theorem C8_lifecycle_idempotence (name st m : Str) (hname : validNameB name = true) :
    ((containsStr (errText st m) (("already running").toList) = true ∨
        containsStr (errText st m) (("already started").toList) = true) →
      startCodespace name (ExecResult.failure st m) = Except.ok ()) ∧
    ((containsStr (errText st m) (("already stopped").toList) = true ∨
        containsStr (errText st m) (("not running").toList) = true) →
      stopCodespace name (ExecResult.failure st m) = Except.ok ()) ∧
    deleteCodespace name (ExecResult.failure st m)
      = Except.error (("Failed to delete codespace: ").toList ++ m) := by
  refine ⟨?_, ?_, ?_⟩
  · intro hor
    unfold startCodespace
    rw [hname, if_neg (by simp)]
    dsimp only
    rw [if_pos (by rcases hor with h | h <;> rw [h] <;> simp)]
  · intro hor
    unfold stopCodespace
    rw [hname, if_neg (by simp)]
    dsimp only
    rw [if_pos (by rcases hor with h | h <;> rw [h] <;> simp)]
  · unfold deleteCodespace
    rw [hname, if_neg (by simp)]

/-- C8 (witness): start succeeds on an `already running` failure report. -/
theorem C8_lifecycle_idempotence_witness :
    startCodespace (("abc").toList)
        (ExecResult.failure (("already running").toList) (("x").toList)) = Except.ok () :=
  (C8_lifecycle_idempotence (("abc").toList) (("already running").toList) (("x").toList)
      (by decide)).1 (Or.inl (by decide))

/-! ## Claim C9: identifier guard before any command construction -/

/-- C9: a name failing the `^[a-zA-Z0-9_-]+$` test makes every name-taking
backend operation return the invalid-name error uniformly in all remaining
inputs (the CLI outcome, the backend listings, the key-file oracle) — so no
shell command is ever constructed or executed from an unvalidated name. -/
theorem C9_invalid_name_guard (name : Str) (h : validNameB name = false) :
    (∀ res, startCodespace name res = Except.error invalidNameMsg) ∧
    (∀ res, stopCodespace name res = Except.error invalidNameMsg) ∧
    (∀ res, deleteCodespace name res = Except.error invalidNameMsg) ∧
    (∀ backend, ensureCodespaceAvailable backend name = Except.error invalidNameMsg) ∧
    (∀ res keyCheck, generateSshConfig name res keyCheck = Except.error invalidNameMsg) := by
  refine ⟨fun res => ?_, fun res => ?_, fun res => ?_, fun backend => ?_, fun res kc => ?_⟩ <;>
    simp [startCodespace, stopCodespace, deleteCodespace, ensureCodespaceAvailable,
      generateSshConfig, h]

/-- C9 (witness): the guard theorem applied to the malformed name
`bad name;rm`. -/
theorem C9_invalid_name_guard_witness :
    validNameB (("bad name;rm").toList) = false ∧
      startCodespace (("bad name;rm").toList) (ExecResult.success [])
        = Except.error invalidNameMsg :=
  ⟨by decide,
   (C9_invalid_name_guard (("bad name;rm").toList) (by decide)).1 (ExecResult.success [])⟩

example : trimStr ("  a b\n").toList = ("a b").toList := by decide
example : firstIndex ("abcab").toList ("ab").toList = some 0 := by decide
example : firstIndex ("xabcab").toList ("ab").toList = some 1 := by decide
example : firstIndex ("xyz").toList ("ab").toList = none := by decide
example : splitOnChar '/' ("a/b/c").toList = [("a").toList, ("b").toList, ("c").toList] := by decide
example : splitOnChar '/' ("owner/").toList = [("owner").toList, []] := by decide
example : replaceFirstChar ("a/b/c").toList '/' '-' = ("a-b/c").toList := by decide
example : jsSubstring ("hello").toList 4 2 = ("ll").toList := by decide

end CursorCodespaces
